import Mathlib

/-!
Shallow embedding of the harmonic real-time audio engine core
(src/src/audio_engine.cpp, src/src/coder_mode.cpp, src/src/dj_cue_system.cpp,
src/src/fft.cpp) over exact rational arithmetic.  Machine floats are modelled
by `ℚ`; the properties verified here (buffer lengths, queue bounds, clamping,
voice lifecycles, crossfade progress bookkeeping) depend only on ordered-field
arithmetic that float and rational evaluation share on the inputs involved.
The trigonometric sample generators and the spectral transform itself are not
needed by any verified property; where the engine invokes `SimpleFFT::analyze`
the model abstracts it as a function parameter, while `calculate_bands` (pure
arithmetic) is embedded exactly.
-/

namespace Harmonic

/-- `std::max(-1.0f, std::min(1.0f, x))` — the output clamp in
`CoderMode::process`. -/
def clampSample (x : ℚ) : ℚ := max (-1) (min 1 x)

/-- Flatten a list of stereo frames into the interleaved sample layout the
C++ code uses (`out[2*i]`, `out[2*i+1]`). -/
def interleave : List (ℚ × ℚ) → List ℚ
  | [] => []
  | p :: rest => p.1 :: p.2 :: interleave rest

namespace SimpleFFT

/-- `SimpleFFT::calculate_bands` (fft.cpp lines 95-127): bass sums bins
`[0, n/5)`, mid sums `[n/5, n/2)`, treble sums `[n/2, n)`, each divided by its
bin count.  Integer divisions are C++ `size_t` divisions, i.e. `Nat` floor
division.  When a bin range is empty the C++ code divides `0.0f` by zero
(producing NaN); in this ℚ model division by zero yields `0` — in both
semantics the resulting band value is not the common bin value. -/
def calculate_bands (magnitudes : List ℚ) : ℚ × ℚ × ℚ :=
  let num_bands := magnitudes.length
  let bass_end := num_bands / 5
  let bass := (magnitudes.take bass_end).sum / (bass_end : ℚ)
  let mid_end := num_bands / 2
  let mid := ((magnitudes.drop bass_end).take (mid_end - bass_end)).sum /
    ((mid_end - bass_end : ℕ) : ℚ)
  let treble := (magnitudes.drop mid_end).sum / ((num_bands - mid_end : ℕ) : ℚ)
  (bass, mid, treble)

end SimpleFFT

namespace CoderMode

/-- `struct Sample` (coder_mode.h): mono PCM data, native rate, display name.
The default constructor leaves `data` empty and sets `sample_rate = 44100`. -/
structure Sample where
  data : List ℚ
  sample_rate : ℤ
  name : String
deriving DecidableEq

/-- `Sample()` — what `std::map::operator[]` value-initializes on a missing
key. -/
def defaultSample : Sample := ⟨[], 44100, ""⟩

/-- `struct ActiveSample` — one sounding voice. -/
structure ActiveSample where
  sample_id : ℤ
  position : ℕ
  volume : ℚ
deriving DecidableEq

/-- `struct Loop`. -/
structure Loop where
  start_frame : ℤ
  end_frame : ℤ
  active : Bool
deriving DecidableEq

/-- `Sequence::Event`. -/
structure SeqEvent where
  frame_offset : ℤ
  sample_id : ℤ
  volume : ℚ
deriving DecidableEq

/-- `struct Sequence`. -/
structure Sequence where
  events : List SeqEvent
  length_frames : ℤ
  playing : Bool
  current_frame : ℤ
deriving DecidableEq

/-- The mutable state of a `CoderMode` instance.  The sample bank
(`std::map<int, Sample>`) is modelled as a partial function; the sequence map
as a key-ordered association list (`std::map` iterates in key order). -/
structure State where
  sample_rate : ℤ
  samples : ℤ → Option Sample
  active_samples : List ActiveSample
  current_loop : Loop
  sequences : List (ℤ × Sequence)
  recording : Bool
  record_start_frame : ℤ
  playback_frame : ℤ
  recorded_buffer : List ℚ

/-- `samples[id]` on a `std::map` — returns the entry, default-inserting an
empty `Sample` when the key is absent.  Returns the entry read together with
the (possibly grown) map. -/
def bankLookup (bank : ℤ → Option Sample) (id : ℤ) :
    Sample × (ℤ → Option Sample) :=
  match bank id with
  | some s => (s, bank)
  | none => (defaultSample, fun k => if k = id then some defaultSample else bank k)

/-- `CoderMode::trigger_sample`: spawn a voice at position 0 only when the id
exists in the bank; unknown ids are silently ignored. -/
def trigger_sample (st : State) (id : ℤ) (volume : ℚ) : State :=
  if (st.samples id).isSome then
    { st with active_samples := st.active_samples ++ [⟨id, 0, volume⟩] }
  else st

/-- Insertion into an offset-sorted event list (models the `std::sort` by
`frame_offset` after `push_back`). -/
def insertEvent (e : SeqEvent) : List SeqEvent → List SeqEvent
  | [] => [e]
  | x :: xs =>
    if e.frame_offset < x.frame_offset then e :: x :: xs else x :: insertEvent e xs

/-- Sort events ascending by `frame_offset`. -/
def sortEvents : List SeqEvent → List SeqEvent
  | [] => []
  | x :: xs => insertEvent x (sortEvents xs)

/-- Lookup in the key-ordered sequence map. -/
def seqLookup : List (ℤ × Sequence) → ℤ → Option Sequence
  | [], _ => none
  | (k, s) :: rest, id => if k = id then some s else seqLookup rest id

/-- Insert or replace in the key-ordered sequence map. -/
def seqInsert : List (ℤ × Sequence) → ℤ → Sequence → List (ℤ × Sequence)
  | [], id, s => [(id, s)]
  | (k, v) :: rest, id, s =>
    if id < k then (id, s) :: (k, v) :: rest
    else if id = k then (id, s) :: rest
    else (k, v) :: seqInsert rest id s

/-- `CoderMode::add_sequence_event`: create the sequence if new, append the
event, re-sort by offset.  No bank-membership check on `sample_id`. -/
def add_sequence_event (st : State) (sequence_id : ℤ) (frame_offset : ℤ)
    (sample_id : ℤ) (volume : ℚ) : State :=
  let seq := (seqLookup st.sequences sequence_id).getD ⟨[], 0, false, 0⟩
  let seq := { seq with events := sortEvents (seq.events ++ [⟨frame_offset, sample_id, volume⟩]) }
  { st with sequences := seqInsert st.sequences sequence_id seq }

/-- `CoderMode::play_sequence`: set `playing` and reset the cursor to 0. -/
def play_sequence (st : State) (sequence_id : ℤ) : State :=
  match seqLookup st.sequences sequence_id with
  | some seq =>
    { st with sequences :=
        seqInsert st.sequences sequence_id { seq with playing := true, current_frame := 0 } }
  | none => st

/-- `CoderMode::stop_sequence`. -/
def stop_sequence (st : State) (sequence_id : ℤ) : State :=
  match seqLookup st.sequences sequence_id with
  | some seq =>
    { st with sequences :=
        seqInsert st.sequences sequence_id { seq with playing := false } }
  | none => st

/-- `CoderMode::set_loop`. -/
def set_loop (st : State) (start_frame end_frame : ℤ) : State :=
  { st with current_loop := ⟨start_frame, end_frame, true⟩ }

/-- `CoderMode::toggle_loop`. -/
def toggle_loop (st : State) : State :=
  { st with current_loop := { st.current_loop with active := !st.current_loop.active } }

/-- `CoderMode::set_recording`. -/
def set_recording (st : State) (record : Bool) : State :=
  if record then
    { st with recording := record, record_start_frame := st.playback_frame,
              recorded_buffer := [] }
  else { st with recording := record }

/-- `CoderMode::load_sample`. -/
def load_sample (st : State) (id : ℤ) (data : List ℚ) (name : String) : State :=
  { st with samples := fun k =>
      if k = id then some ⟨data, st.sample_rate, name⟩ else st.samples k }

/-- The per-voice inner loop of `CoderMode::process`: walk the output frames,
adding `data[pos] * volume` to both channels while `pos < data.size()`, then
`break` (leaving the remaining frames untouched).  Returns the mixed output
and the final read position. -/
def mixVoice (data : List ℚ) (volume : ℚ) :
    List (ℚ × ℚ) → ℕ → List (ℚ × ℚ) × ℕ
  | [], pos => ([], pos)
  | f :: rest, pos =>
    if pos < data.length then
      let v := data.getD pos 0 * volume
      let r := mixVoice data volume rest (pos + 1)
      ((f.1 + v, f.2 + v) :: r.1, r.2)
    else (f :: rest, pos)

/-- The active-voice loop of `CoderMode::process`: each voice looks up its
sample via `samples[id]` (default-inserting), mixes into the output, and is
erased when its position reaches the sample length.  Returns the possibly
grown bank, the surviving voices in order, and the mixed output. -/
def processVoices : (ℤ → Option Sample) → List ActiveSample → List (ℚ × ℚ) →
    (ℤ → Option Sample) × List ActiveSample × List (ℚ × ℚ)
  | bank, [], out => (bank, [], out)
  | bank, v :: vs, out =>
    let lr := bankLookup bank v.sample_id
    let mr := mixVoice lr.1.data v.volume out v.position
    let rest := processVoices lr.2 vs mr.1
    if mr.2 ≥ lr.1.data.length then rest
    else (rest.1, ⟨v.sample_id, mr.2, v.volume⟩ :: rest.2.1, rest.2.2)

/-- One sequence's share of `CoderMode::process`: when playing, spawn a voice
for every event whose offset falls in `[current_frame, current_frame +
frame_count)`, advance the cursor, wrap when a positive `length_frames` is
exceeded. -/
def stepSequence (frame_count : ℕ) (seq : Sequence) :
    Sequence × List ActiveSample :=
  if seq.playing then
    let spawned := (seq.events.filter (fun e =>
        decide (e.frame_offset ≥ seq.current_frame ∧
          e.frame_offset < seq.current_frame + (frame_count : ℤ)))).map
      (fun e => (⟨e.sample_id, 0, e.volume⟩ : ActiveSample))
    let cf := seq.current_frame + (frame_count : ℤ)
    let cf := if seq.length_frames > 0 ∧ cf ≥ seq.length_frames then 0 else cf
    ({ seq with current_frame := cf }, spawned)
  else (seq, [])

/-- The sequence loop of `CoderMode::process`, in map iteration order. -/
def processSequences (frame_count : ℕ) :
    List (ℤ × Sequence) → List (ℤ × Sequence) × List ActiveSample
  | [] => ([], [])
  | (k, seq) :: rest =>
    let r := stepSequence frame_count seq
    let rr := processSequences frame_count rest
    ((k, r.1) :: rr.1, r.2 ++ rr.2)

/-- `CoderMode::process` (coder_mode.cpp lines 100-196): zero the block, mix
active voices (erasing finished ones), scan playing sequences spawning new
voices, advance the loop counter, append the pre-clamp mix to the recording
buffer when recording, and finally clamp every sample to `[-1, 1]`.  The
stereo block is a list of `frame_count` (left, right) pairs. -/
def process (st : State) (frame_count : ℕ) : List (ℚ × ℚ) × State :=
  let out0 := List.replicate frame_count ((0 : ℚ), (0 : ℚ))
  let pv := processVoices st.samples st.active_samples out0
  let ps := processSequences frame_count st.sequences
  let voices := pv.2.1 ++ ps.2
  let pf :=
    if st.current_loop.active then
      let advanced := st.playback_frame + (frame_count : ℤ)
      if advanced ≥ st.current_loop.end_frame then st.current_loop.start_frame
      else advanced
    else st.playback_frame
  let recorded :=
    if st.recording then st.recorded_buffer ++ interleave pv.2.2
    else st.recorded_buffer
  let outF := pv.2.2.map (fun p => (clampSample p.1, clampSample p.2))
  (outF, { st with samples := pv.1, active_samples := voices,
                   sequences := ps.1, playback_frame := pf,
                   recorded_buffer := recorded })

/-- `CoderMode::get_recording`. -/
def get_recording (st : State) : List ℚ := st.recorded_buffer

/-- Iterate `process`, keeping only the state (the outputs go to the device). -/
def processMany (st : State) (ks : List ℕ) : State :=
  ks.foldl (fun s k => (process s k).2) st

end CoderMode

namespace DJCueSystem

/-- `struct CuePoint` (pending next-track cue). -/
structure CuePoint where
  track_path : String
  position_frames : ℤ
  fade_in_seconds : ℚ
  active : Bool
deriving DecidableEq

/-- Crossfade-relevant state of a `DJCueSystem` instance. -/
structure State where
  sample_rate : ℤ
  crossfade_duration : ℚ
  current_bpm : ℚ
  is_crossfading : Bool
  crossfade_progress : ℚ
  current_fade_frames : ℕ
  next_cue : CuePoint
deriving DecidableEq

/-- `std::min(1.0f, std::max(0.0f, progress))` — the progress clamp in
`process_crossfade`. -/
def clamp01 (x : ℚ) : ℚ := min 1 (max 0 x)

/-- `DJCueSystem::cue_next_track`. -/
def cue_next_track (st : State) (track_path : String) (fade_in : ℚ) : State :=
  { st with next_cue := ⟨track_path, 0, fade_in, true⟩ }

/-- `DJCueSystem::clear_cue`. -/
def clear_cue (st : State) : State :=
  { st with next_cue := { st.next_cue with active := false } }

/-- `DJCueSystem::set_crossfade_duration`. -/
def set_crossfade_duration (st : State) (seconds : ℚ) : State :=
  { st with crossfade_duration := seconds }

/-- `DJCueSystem::trigger_crossfade`: arm only when a cue is pending;
`current_fade_frames = (uint64_t)(crossfade_duration * sample_rate)` (the C++
float-to-unsigned truncation; for the nonnegative products that occur it
equals the floor, and a negative product is clipped to 0 by `toNat`). -/
def trigger_crossfade (st : State) : State :=
  if st.next_cue.active then
    { st with is_crossfading := true, crossfade_progress := 0,
              current_fade_frames := (st.crossfade_duration * (st.sample_rate : ℚ)).floor.toNat }
  else st

/-- `DJCueSystem::is_crossfading_active`. -/
def is_crossfading_active (st : State) : Bool := st.is_crossfading

/-- The per-sample loop of `DJCueSystem::process_crossfade`.  `fo` and `fi`
stand for the equal-power curves `cos(·π/2)` and `sin(·π/2)` applied to the
clamped progress.  Recursion is over the remaining frame count paired with the
two buffers (the caller guarantees the buffers cover `frame_count` frames).
Returns the mixed current buffer, the final `crossfade_progress`, whether the
`crossfade_progress >= current_fade_frames` exit fired, and — as a ghost
observation for the proofs — the per-sample clamped progress values actually
applied, in order. -/
def crossfadeLoop (fo fi : ℚ → ℚ) (fadeFrames : ℕ) :
    ℕ → List (ℚ × ℚ) → List (ℚ × ℚ) → ℚ →
    List (ℚ × ℚ) × ℚ × Bool × List ℚ
  | 0, cur, _, p => (cur, p, false, [])
  | _ + 1, [], _, p => ([], p, false, [])
  | _ + 1, c :: cs, [], p => (c :: cs, p, false, [])
  | n + 1, c :: cs, x :: xs, p =>
    let prog := clamp01 (p / (fadeFrames : ℚ))
    let fout := fo prog
    let fin := fi prog
    let mixed := (c.1 * fout + x.1 * fin, c.2 * fout + x.2 * fin)
    let p1 := p + 1
    if (fadeFrames : ℚ) ≤ p1 then (mixed :: cs, p1, true, [prog])
    else
      let r := crossfadeLoop fo fi fadeFrames n cs xs p1
      (mixed :: r.1, r.2.1, r.2.2.1, prog :: r.2.2.2)

/-- `DJCueSystem::process_crossfade` (dj_cue_system.cpp lines 59-92): no-op
unless crossfading; otherwise run the per-sample mix; when the progress
counter reaches `current_fade_frames` the fade ends — `is_crossfading` is
cleared, the pending cue's `active` flag is cleared, and the caller's
`current_pos` reference is reset to 0.  Returns the new state, the mixed
current-audio buffer, the (possibly reset) `current_pos`, and the ghost list
of applied progress values. -/
def process_crossfade (fo fi : ℚ → ℚ) (st : State)
    (current_audio next_audio : List (ℚ × ℚ)) (frame_count : ℕ)
    (current_pos : ℕ) : State × List (ℚ × ℚ) × ℕ × List ℚ :=
  if st.is_crossfading then
    let r := crossfadeLoop fo fi st.current_fade_frames frame_count
      current_audio next_audio st.crossfade_progress
    if r.2.2.1 then
      ({ st with is_crossfading := false, crossfade_progress := r.2.1,
                 next_cue := { st.next_cue with active := false } },
       r.1, 0, r.2.2.2)
    else
      ({ st with crossfade_progress := r.2.1 }, r.1, current_pos, r.2.2.2)
  else (st, current_audio, current_pos, [])

end DJCueSystem

namespace AudioEngine

/-- `struct FFTData` (audio_engine.h). -/
structure FFTData where
  magnitudes : List ℚ
  bass : ℚ
  mid : ℚ
  treble : ℚ
  energy : ℚ
deriving DecidableEq

/-- The stream-decoupling state: the bounded chunk queue plus the residual
accumulation buffer, both holding interleaved stereo samples. -/
structure StreamState where
  stream_queue : List (List ℚ)
  stream_buffer : List ℚ
deriving DecidableEq

/-- The engine state visible to the modelled operations.  The decoder is
modelled by the remaining decoded PCM frames. -/
structure State where
  is_playing : Bool
  live_coding_enabled : Bool
  muted : Bool
  track_ended : Bool
  decoder_initialized : Bool
  current_track : String
  decoder : List (ℚ × ℚ)
  coder : CoderMode.State
  stream : StreamState
  current_fft : FFTData

/-- `AudioEngine::add_to_stream_queue` (audio_engine.cpp lines 134-143):
append the chunk; if the queue now exceeds 10 entries, pop exactly the
front (oldest) one. -/
def add_to_stream_queue (queue : List (List ℚ)) (buffer : List ℚ) :
    List (List ℚ) :=
  let q := queue ++ [buffer]
  if 10 < q.length then q.drop 1 else q

/-- The draining loop of `get_stream_buffer`: while the residual buffer holds
fewer than `req` samples, pop a chunk off the queue and append it; when the
queue is empty the 100 ms condition-variable wait times out (no producer in
the sequential model) and the loop breaks. -/
def drainQueue (req : ℕ) : List (List ℚ) → List ℚ → List (List ℚ) × List ℚ
  | [], buf => ([], buf)
  | c :: q, buf =>
    if req ≤ buf.length then (c :: q, buf)
    else drainQueue req q (buf ++ c)

/-- `AudioEngine::get_stream_buffer` (audio_engine.cpp lines 85-132): drain
queued chunks into the residual buffer until `frames * 2` samples are
available, then either split off exactly that many or zero-pad what remains. -/
def get_stream_buffer (st : StreamState) (frames : ℕ) :
    List ℚ × StreamState :=
  let required_samples := frames * 2
  let d := drainQueue required_samples st.stream_queue st.stream_buffer
  if required_samples ≤ d.2.length then
    (d.2.take required_samples, ⟨d.1, d.2.drop required_samples⟩)
  else
    (d.2 ++ List.replicate (required_samples - d.2.length) 0, ⟨d.1, []⟩)

/-- `AudioEngine::calculate_fft`: average the two channels into a mono block,
run `SimpleFFT::analyze` (abstracted as `analyzeFn` — its trigonometric
internals are irrelevant to the verified claims), derive the three bands and
the mean energy.  The previous snapshot is replaced wholesale. -/
def calculate_fft (analyzeFn : List ℚ → List ℚ) (block : List (ℚ × ℚ)) :
    FFTData :=
  let mono := block.map (fun p => (p.1 + p.2) / 2)
  let mags := analyzeFn mono
  let bands := SimpleFFT.calculate_bands mags
  ⟨mags, bands.1, bands.2.1, bands.2.2, (bands.1 + bands.2.1 + bands.2.2) / 3⟩

/-- The tail of `data_callback` shared by the CODER and DECODE branches:
publish the produced block to the stream queue, compute the FFT snapshot —
both BEFORE mute — then zero the local output if `muted`. -/
def callbackPublish (analyzeFn : List ℚ → List ℚ) (st : State)
    (out : List (ℚ × ℚ)) (frame_count : ℕ) : List (ℚ × ℚ) × State :=
  let st1 := { st with
    stream := { st.stream with
      stream_queue := add_to_stream_queue st.stream.stream_queue (interleave out) },
    current_fft := calculate_fft analyzeFn out }
  let out_local :=
    if st1.muted then List.replicate frame_count ((0 : ℚ), (0 : ℚ)) else out
  (out_local, st1)

/-- `AudioEngine::data_callback` (audio_engine.cpp lines 161-240): pick
exactly one source — coder when live coding is enabled, else the decoder when
initialized and playing (partial reads zero-fill and raise `track_ended`),
else silence (published and analyzed, then early return before the mute
step).  Producing branches then publish, analyze, and mute via
`callbackPublish`.  Returns the local device output and the new state. -/
def data_callback (analyzeFn : List ℚ → List ℚ) (st : State)
    (frame_count : ℕ) : List (ℚ × ℚ) × State :=
  if st.live_coding_enabled then
    let r := CoderMode.process st.coder frame_count
    callbackPublish analyzeFn { st with coder := r.2 } r.1 frame_count
  else if st.decoder_initialized && st.is_playing then
    let frames_read := min frame_count st.decoder.length
    let out := st.decoder.take frames_read ++
      List.replicate (frame_count - frames_read) ((0 : ℚ), (0 : ℚ))
    let st1 := { st with
      decoder := st.decoder.drop frames_read,
      track_ended := if frames_read < frame_count then true else st.track_ended }
    callbackPublish analyzeFn st1 out frame_count
  else
    let out := List.replicate frame_count ((0 : ℚ), (0 : ℚ))
    (out, { st with
      stream := { st.stream with
        stream_queue := add_to_stream_queue st.stream.stream_queue (interleave out) },
      current_fft := calculate_fft analyzeFn out })

/-- The unmuted block a producing callback generates: the coder block when
live coding is enabled, otherwise the decoder read zero-filled to length. -/
def produced_block (st : State) (frame_count : ℕ) : List (ℚ × ℚ) :=
  if st.live_coding_enabled then (CoderMode.process st.coder frame_count).1
  else
    st.decoder.take (min frame_count st.decoder.length) ++
      List.replicate (frame_count - min frame_count st.decoder.length) ((0 : ℚ), (0 : ℚ))

/-- `AudioEngine::load_track` (audio_engine.cpp lines 54-73): first tear down
any initialized decoder, then try to open the new file (`init_ok` abstracts
`ma_decoder_init_file`; `pcm` is the decoded content on success).  On failure
return `false` with the decoder left uninitialized; on success install the
new decoder, record the track, and clear `track_ended`. -/
def load_track (init_ok : String → Bool) (st : State) (filepath : String)
    (pcm : List (ℚ × ℚ)) : Bool × State :=
  let st1 := if st.decoder_initialized then { st with decoder_initialized := false } else st
  if init_ok filepath then
    (true, { st1 with decoder_initialized := true, decoder := pcm,
                      current_track := filepath, track_ended := false })
  else (false, st1)

/-- `AudioEngine::enable_live_coding`. -/
def enable_live_coding (st : State) (enable : Bool) : State :=
  { st with live_coding_enabled := enable }

/-- `AudioEngine::set_muted`. -/
def set_muted (st : State) (mute : Bool) : State :=
  { st with muted := mute }

/-- `AudioEngine::get_fft_data` — returns the latest snapshot. -/
def get_fft_data (st : State) : FFTData := st.current_fft

end AudioEngine

/-- A coder state with an empty bank, no voices, and no sequences —
a test fixture for concrete evaluations. -/
def exampleCoder : CoderMode.State :=
  ⟨44100, fun _ => none, [], ⟨0, 0, false⟩, [], false, 0, 0, []⟩

/-- An all-zero FFT snapshot fixture. -/
def exampleFFT : AudioEngine.FFTData := ⟨[], 0, 0, 0, 0⟩

/-- An engine fixture: playing, muted, with an initialized decoder holding one
remaining frame and a previously loaded track. -/
def exampleEngine : AudioEngine.State :=
  ⟨true, false, true, false, true, "prev.mp3", [((1 : ℚ) / 2, -(1 : ℚ) / 2)],
   exampleCoder, ⟨[], []⟩, exampleFFT⟩

end Harmonic

namespace Harmonic

/-! ### Helper lemmas -/

theorem drainQueue_fst_length (req : ℕ) :
    ∀ (q : List (List ℚ)) (buf : List ℚ),
      ((AudioEngine.drainQueue req q buf).1).length ≤ q.length := by
  intro q
  induction q with
  | nil => intro buf; simp [AudioEngine.drainQueue]
  | cons c q ih =>
    intro buf
    unfold AudioEngine.drainQueue
    split
    · simp
    · exact le_trans (ih (buf ++ c)) (by simp)

/-! ### C1 -/

/-- C1: for every stream state and every frame count — including when the
queue and residual buffer are empty or short, so the wait times out and the
result is zero-padded — `get_stream_buffer(frames)` returns a buffer of
exactly `frames * 2` samples. -/
theorem c1_get_stream_buffer_exact_length (st : AudioEngine.StreamState)
    (frames : ℕ) :
    ((AudioEngine.get_stream_buffer st frames).1).length = frames * 2 := by
  unfold AudioEngine.get_stream_buffer
  dsimp only
  split
  case isTrue h => simpa using h
  case isFalse h => simp; omega

/-! ### C5 -/

/-- C5: `add_to_stream_queue` appends the new chunk and, exactly when the
queue would exceed 10 entries, evicts the single oldest entry; consequently a
queue of at most 10 chunks stays at most 10 after the push, a full queue of
10 becomes the 10 newest in order, and `get_stream_buffer` (the only other
queue operation) never grows the queue. -/
theorem c5_stream_queue_bounded (q : List (List ℚ)) (buf : List ℚ)
    (st : AudioEngine.StreamState) (n : ℕ) :
    (AudioEngine.add_to_stream_queue q buf =
      if 10 ≤ q.length then q.drop 1 ++ [buf] else q ++ [buf]) ∧
    (q.length ≤ 10 → (AudioEngine.add_to_stream_queue q buf).length ≤ 10) ∧
    (q.length = 10 → AudioEngine.add_to_stream_queue q buf = q.drop 1 ++ [buf]) ∧
    ((AudioEngine.get_stream_buffer st n).2.stream_queue.length ≤
      st.stream_queue.length) := by
  have hform : AudioEngine.add_to_stream_queue q buf =
      if 10 ≤ q.length then q.drop 1 ++ [buf] else q ++ [buf] := by
    unfold AudioEngine.add_to_stream_queue
    by_cases h : 10 ≤ q.length
    · rw [if_pos (by simp; omega), if_pos h]
      exact List.drop_append_of_le_length (by omega)
    · rw [if_neg (by simp; omega), if_neg h]
  refine ⟨hform, ?_, ?_, ?_⟩
  · intro hle
    rw [hform]
    by_cases h : 10 ≤ q.length
    · rw [if_pos h]; simp; omega
    · rw [if_neg h]; simp; omega
  · intro h10
    rw [hform, if_pos (by omega)]
  · unfold AudioEngine.get_stream_buffer
    dsimp only
    split
    · exact drainQueue_fst_length _ _ _
    · exact drainQueue_fst_length _ _ _

/-- Witness for C5 at concrete inputs: a full queue of ten one-sample chunks
(eviction keeps the 10 newest) and the empty stream state. -/
theorem c5_witness :
    ((List.replicate 10 [(0 : ℚ)]).length ≤ 10 →
      (AudioEngine.add_to_stream_queue (List.replicate 10 [(0 : ℚ)]) [1]).length ≤ 10) ∧
    ((List.replicate 10 [(0 : ℚ)]).length = 10 →
      AudioEngine.add_to_stream_queue (List.replicate 10 [(0 : ℚ)]) [1] =
        (List.replicate 10 [(0 : ℚ)]).drop 1 ++ [[1]]) ∧
    (AudioEngine.get_stream_buffer ⟨[], []⟩ 3).2.stream_queue.length ≤
      (AudioEngine.StreamState.mk [] []).stream_queue.length :=
  ⟨(c5_stream_queue_bounded (List.replicate 10 [(0 : ℚ)]) [1] ⟨[], []⟩ 3).2.1,
   (c5_stream_queue_bounded (List.replicate 10 [(0 : ℚ)]) [1] ⟨[], []⟩ 3).2.2.1,
   (c5_stream_queue_bounded (List.replicate 10 [(0 : ℚ)]) [1] ⟨[], []⟩ 3).2.2.2⟩

/-! ### C3 -/

/-- C3 counterexample: on an engine with an initialized decoder, a failing
`load_track` does NOT leave the previous decoder initialized — the code tears
the old decoder down before attempting the new file, so after the failure
`decoder_initialized` is `false`, contradicting the claim that the previously
loaded decoder remains initialized and playable. -/
theorem c3_counterexample :
    ¬ ((AudioEngine.load_track (fun _ => false) exampleEngine "missing.mp3"
        []).2.decoder_initialized = true) := by
  decide

/-- C3 as amended: if `load_track(path)` fails it returns `false`,
`current_track` and `track_ended` are unchanged, but the previously loaded
decoder has already been uninitialized — the engine is left with no decoder
(`decoder_initialized = false`); every other field is untouched. -/
theorem c3_load_track_failure (init_ok : String → Bool)
    (st : AudioEngine.State) (filepath : String) (pcm : List (ℚ × ℚ))
    (hfail : init_ok filepath = false) :
    AudioEngine.load_track init_ok st filepath pcm =
      (false, { st with decoder_initialized := false }) := by
  unfold AudioEngine.load_track
  rw [hfail]
  by_cases h : st.decoder_initialized = true
  · simp [h]
  · have h' : st.decoder_initialized = false := by
      revert h; cases st.decoder_initialized <;> simp
    cases st
    simp_all

/-- Witness for C3's amended theorem at the engine fixture. -/
theorem c3_witness :
    (fun (_ : String) => false) "missing.mp3" = false ∧
    AudioEngine.load_track (fun _ => false) exampleEngine "missing.mp3" [] =
      (false, { exampleEngine with decoder_initialized := false }) :=
  ⟨rfl, c3_load_track_failure (fun _ => false) exampleEngine "missing.mp3" [] rfl⟩

/-! ### C8 -/

/-- C8 counterexample: on the all-equal four-bin magnitude array
`[1, 1, 1, 1]` the bass range `[0, 4/5) = [0, 0)` is empty, so the code
divides an empty sum by zero bins (`0.0f / 0`, NaN in C++; `0` in this ℚ
model) — either way the result is not `(1, 1, 1)`, refuting the claim for
every magnitude array. -/
theorem c8_counterexample :
    SimpleFFT.calculate_bands (List.replicate 4 (1 : ℚ)) ≠ (1, 1, 1) := by
  norm_num [SimpleFFT.calculate_bands]

/-- C8 as amended: `calculate_bands` averages the bins `[0, n/5)`, `[n/5,
n/2)` and `[n/2, n)` independently, so on every magnitude array of at least 5
bins (each band then holds at least one bin) whose entries all equal `v` it
yields bass = mid = treble = `v` exactly. -/
theorem c8_all_equal_bands (v : ℚ) (n : ℕ) (h : 5 ≤ n) :
    SimpleFFT.calculate_bands (List.replicate n v) = (v, v, v) := by
  have h5 : (n / 5 : ℕ) ≠ 0 := by omega
  have h2 : (n / 2 - n / 5 : ℕ) ≠ 0 := by omega
  have h1 : (n - n / 2 : ℕ) ≠ 0 := by omega
  have hm1 : min (n / 5) n = n / 5 := by omega
  have hm2 : min (n / 2 - n / 5) (n - n / 5) = n / 2 - n / 5 := by omega
  unfold SimpleFFT.calculate_bands
  simp only [List.length_replicate, List.take_replicate, List.drop_replicate,
    List.sum_replicate, hm1, hm2, nsmul_eq_mul]
  refine Prod.ext ?_ (Prod.ext ?_ ?_) <;> simp only
  · rw [mul_comm, mul_div_cancel_right₀ v (Nat.cast_ne_zero.mpr h5)]
  · rw [mul_comm, mul_div_cancel_right₀ v (Nat.cast_ne_zero.mpr h2)]
  · rw [mul_comm, mul_div_cancel_right₀ v (Nat.cast_ne_zero.mpr h1)]

/-- Witness for C8's amended theorem: a five-bin all-equal array. -/
theorem c8_witness :
    5 ≤ 5 ∧ SimpleFFT.calculate_bands (List.replicate 5 (3 : ℚ)) = (3, 3, 3) :=
  ⟨by decide, c8_all_equal_bands 3 5 (by decide)⟩

/-! ### CoderMode helper lemmas -/

theorem clampSample_zero : clampSample 0 = 0 := by
  norm_num [clampSample]

theorem clampSample_mem (x : ℚ) : -1 ≤ clampSample x ∧ clampSample x ≤ 1 :=
  ⟨le_max_left _ _, max_le (by norm_num) (min_le_left _ _)⟩

theorem range_map_const {α : Type} (c : α) (m : ℕ) :
    (List.range m).map (fun _ => c) = List.replicate m c := by
  induction m with
  | zero => rfl
  | succ m ih => simp [List.range_succ, ih, List.replicate_succ']

theorem mixVoice_length (data : List ℚ) (vol : ℚ) :
    ∀ (out : List (ℚ × ℚ)) (pos : ℕ),
      ((CoderMode.mixVoice data vol out pos).1).length = out.length := by
  intro out
  induction out with
  | nil => intro pos; rfl
  | cons f rest ih =>
    intro pos
    unfold CoderMode.mixVoice
    dsimp only
    split
    · simp [ih]
    · rfl

theorem mixVoice_position (data : List ℚ) (vol : ℚ) :
    ∀ (out : List (ℚ × ℚ)) (pos : ℕ),
      (CoderMode.mixVoice data vol out pos).2 =
        if pos < data.length then min (pos + out.length) data.length else pos := by
  intro out
  induction out with
  | nil =>
    intro pos
    simp only [CoderMode.mixVoice, List.length_nil]
    split <;> omega
  | cons f rest ih =>
    intro pos
    unfold CoderMode.mixVoice
    dsimp only
    by_cases h : pos < data.length
    · rw [if_pos h]
      dsimp only
      rw [ih (pos + 1)]
      simp only [List.length_cons]
      split_ifs <;> omega
    · rw [if_neg h]
      simp only [List.length_cons]
      rw [if_neg h]

theorem mixVoice_replicate_zero (data : List ℚ) (vol : ℚ) :
    ∀ (m : ℕ) (pos : ℕ),
      (CoderMode.mixVoice data vol (List.replicate m ((0 : ℚ), (0 : ℚ))) pos).1 =
        (List.range m).map (fun j =>
          if pos + j < data.length
          then (data.getD (pos + j) 0 * vol, data.getD (pos + j) 0 * vol)
          else (0, 0)) := by
  intro m
  induction m with
  | zero => intro pos; rfl
  | succ m ih =>
    intro pos
    rw [List.replicate_succ]
    unfold CoderMode.mixVoice
    dsimp only
    split
    case isTrue h =>
      rw [ih (pos + 1), List.range_succ_eq_map, List.map_cons, List.map_map]
      refine congrArg₂ List.cons ?_ ?_
      · simp [h]
      · refine List.map_congr_left ?_
        intro j _
        have e : pos + 1 + j = pos + (j + 1) := by omega
        simp [Function.comp, e, Nat.succ_eq_add_one]
    case isFalse h =>
      have hmap : (List.range (m + 1)).map (fun j =>
          if pos + j < data.length
          then (data.getD (pos + j) 0 * vol, data.getD (pos + j) 0 * vol)
          else ((0 : ℚ), (0 : ℚ))) =
          (List.range (m + 1)).map (fun _ => ((0 : ℚ), (0 : ℚ))) := by
        refine List.map_congr_left ?_
        intro j _
        rw [if_neg (by omega)]
      rw [hmap, range_map_const, List.replicate_succ]

theorem processVoices_out_length :
    ∀ (vs : List CoderMode.ActiveSample) (bank : ℤ → Option CoderMode.Sample)
      (out : List (ℚ × ℚ)),
      ((CoderMode.processVoices bank vs out).2.2).length = out.length := by
  intro vs
  induction vs with
  | nil => intro bank out; rfl
  | cons v vs ih =>
    intro bank out
    unfold CoderMode.processVoices
    dsimp only
    split
    · rw [ih, mixVoice_length]
    · dsimp only; rw [ih, mixVoice_length]

theorem bankLookup_found (bank : ℤ → Option CoderMode.Sample) (id : ℤ)
    (s : CoderMode.Sample) (hb : bank id = some s) :
    CoderMode.bankLookup bank id = (s, bank) := by
  unfold CoderMode.bankLookup
  rw [hb]

theorem processVoices_single (bank : ℤ → Option CoderMode.Sample) (id : ℤ)
    (s : CoderMode.Sample) (t : ℕ) (vol : ℚ) (out : List (ℚ × ℚ))
    (hb : bank id = some s) :
    CoderMode.processVoices bank [⟨id, t, vol⟩] out =
      (bank,
       (if t + out.length < s.data.length
        then [⟨id, t + out.length, vol⟩] else []),
       (CoderMode.mixVoice s.data vol out t).1) := by
  simp only [CoderMode.processVoices]
  rw [bankLookup_found bank id s hb]
  dsimp only
  have hpval := mixVoice_position s.data vol out t
  by_cases h2 : t + out.length < s.data.length
  · have hple : (CoderMode.mixVoice s.data vol out t).2 = t + out.length := by
      rw [hpval]; split_ifs <;> omega
    rw [if_neg (by rw [hple]; omega), if_pos h2, hple]
  · have hpge : (CoderMode.mixVoice s.data vol out t).2 ≥ s.data.length := by
      rw [hpval]; split_ifs <;> omega
    rw [if_pos hpge, if_neg h2]

/-- `process` on a state with no voices and no sequences: nothing changes in
the bank / voice / sequence state and the output is silence. -/
theorem process_no_voices (st : CoderMode.State) (k : ℕ)
    (hs : st.sequences = []) (hv : st.active_samples = []) :
    (CoderMode.process st k).2.samples = st.samples ∧
    (CoderMode.process st k).2.sequences = [] ∧
    (CoderMode.process st k).2.active_samples = [] ∧
    (CoderMode.process st k).1 = List.replicate k (0, 0) := by
  unfold CoderMode.process
  rw [hv, hs]
  refine ⟨rfl, rfl, rfl, ?_⟩
  simp [CoderMode.processVoices, List.map_replicate, clampSample_zero]

/-- `process` on a state holding exactly one voice for a bank-resident sample
and no sequences: the bank and sequences are unchanged, the voice advances by
`min k (remaining)` and is erased exactly when it reaches the sample length,
and the output is the voice's data (scaled and clamped) from position `t`. -/
theorem process_single_voice (st : CoderMode.State) (id : ℤ)
    (s : CoderMode.Sample) (t : ℕ) (vol : ℚ) (k : ℕ)
    (hb : st.samples id = some s) (hs : st.sequences = [])
    (hv : st.active_samples = [⟨id, t, vol⟩]) :
    (CoderMode.process st k).2.samples = st.samples ∧
    (CoderMode.process st k).2.sequences = [] ∧
    (CoderMode.process st k).2.active_samples =
      (if t + k < s.data.length then [⟨id, t + k, vol⟩] else []) ∧
    (CoderMode.process st k).1 =
      (List.range k).map (fun j =>
        if t + j < s.data.length
        then (clampSample (s.data.getD (t + j) 0 * vol),
              clampSample (s.data.getD (t + j) 0 * vol))
        else (0, 0)) := by
  unfold CoderMode.process
  rw [hv, hs]
  dsimp only
  rw [processVoices_single st.samples id s t vol _ hb]
  dsimp only
  refine ⟨rfl, rfl, ?_, ?_⟩
  · simp [CoderMode.processSequences]
  · rw [mixVoice_replicate_zero, List.map_map]
    refine List.map_congr_left ?_
    intro j _
    by_cases hj : t + j < s.data.length
    · simp [hj, Function.comp]
    · simp [hj, Function.comp, clampSample_zero]

theorem processMany_cons (st : CoderMode.State) (k : ℕ) (ks : List ℕ) :
    CoderMode.processMany st (k :: ks) =
      CoderMode.processMany (CoderMode.process st k).2 ks := rfl

/-- Invariant run: from a state whose only possible voice is the tracked one
at virtual position `t` (present exactly while `t` is short of the sample
length), iterating `process` over frame counts `ks` lands the voice at
`t + ks.sum`, removing it exactly when that reaches the sample length. -/
theorem processMany_single_voice (id : ℤ) (s : CoderMode.Sample) (vol : ℚ) :
    ∀ (ks : List ℕ) (st : CoderMode.State) (t : ℕ),
      st.samples id = some s → st.sequences = [] →
      st.active_samples = (if t < s.data.length then [⟨id, t, vol⟩] else []) →
      (CoderMode.processMany st ks).samples id = some s ∧
      (CoderMode.processMany st ks).sequences = [] ∧
      (CoderMode.processMany st ks).active_samples =
        (if t + ks.sum < s.data.length then [⟨id, t + ks.sum, vol⟩] else []) := by
  intro ks
  induction ks with
  | nil =>
    intro st t hb hs hv
    exact ⟨hb, hs, by simpa using hv⟩
  | cons k ks ih =>
    intro st t hb hs hv
    rw [processMany_cons]
    by_cases ht : t < s.data.length
    · rw [if_pos ht] at hv
      obtain ⟨h1, h2, h3, _⟩ := process_single_voice st id s t vol k hb hs hv
      have := ih (CoderMode.process st k).2 (t + k) (by rw [h1]; exact hb) h2 h3
      simpa [List.sum_cons, Nat.add_assoc] using this
    · rw [if_neg ht] at hv
      obtain ⟨h1, h2, h3, _⟩ := process_no_voices st k hs hv
      have := ih (CoderMode.process st k).2 (t + k)
        (by rw [h1]; exact hb) h2 (by rw [h3, if_neg (by omega)])
      simpa [List.sum_cons, Nat.add_assoc] using this

/-! ### C6 -/

/-- C6: for a sample id present in the bank with data length `L` (starting
from a state with no voices and no sequences), triggering it and then
processing calls totalling at least `L` frames removes the voice; processing
a total strictly below `L` leaves the voice present, its read position
advanced by exactly the frames processed. -/
theorem c6_voice_lifecycle (st0 : CoderMode.State) (id : ℤ)
    (s : CoderMode.Sample) (vol : ℚ) (ks : List ℕ)
    (hb : st0.samples id = some s) (hv : st0.active_samples = [])
    (hs : st0.sequences = []) :
    (ks ≠ [] → s.data.length ≤ ks.sum →
      (CoderMode.processMany (CoderMode.trigger_sample st0 id vol) ks).active_samples = []) ∧
    (ks.sum < s.data.length →
      (CoderMode.processMany (CoderMode.trigger_sample st0 id vol) ks).active_samples =
        [⟨id, ks.sum, vol⟩]) := by
  have htrig : CoderMode.trigger_sample st0 id vol =
      { st0 with active_samples := [(⟨id, 0, vol⟩ : CoderMode.ActiveSample)] } := by
    unfold CoderMode.trigger_sample
    rw [hb]
    simp [hv]
  constructor
  · intro hne hle
    cases ks with
    | nil => exact absurd rfl hne
    | cons k ks =>
      rw [processMany_cons]
      obtain ⟨h1, h2, h3, _⟩ := process_single_voice
        (CoderMode.trigger_sample st0 id vol) id s 0 vol k
        (by rw [htrig]; exact hb) (by rw [htrig]; exact hs)
        (by rw [htrig])
      have := (processMany_single_voice id s vol ks _ k
        (by rw [h1, htrig]; exact hb) h2 (by simpa using h3)).2.2
      rw [this, if_neg (by simp [List.sum_cons] at hle ⊢; omega)]
  · intro hlt
    cases ks with
    | nil =>
      simp [CoderMode.processMany, htrig]
    | cons k ks =>
      rw [processMany_cons]
      obtain ⟨h1, h2, h3, _⟩ := process_single_voice
        (CoderMode.trigger_sample st0 id vol) id s 0 vol k
        (by rw [htrig]; exact hb) (by rw [htrig]; exact hs)
        (by rw [htrig])
      have := (processMany_single_voice id s vol ks _ k
        (by rw [h1, htrig]; exact hb) h2 (by simpa using h3)).2.2
      rw [this, if_pos (by simp [List.sum_cons] at hlt ⊢; omega)]
      simp [List.sum_cons]

/-- Witness for C6 on a one-sample bank (data length 3): two calls totalling
3 frames remove the voice; a single 2-frame call leaves it at position 2. -/
theorem c6_witness :
    (let bank : CoderMode.State :=
      { exampleCoder with samples := fun i => if i = 0 then some ⟨[1, 1, 1], 44100, "t"⟩ else none }
     ((CoderMode.processMany (CoderMode.trigger_sample bank 0 1) [2, 1]).active_samples = []) ∧
     ((CoderMode.processMany (CoderMode.trigger_sample bank 0 1) [2]).active_samples =
        [⟨0, 2, 1⟩])) := by
  refine ⟨?_, ?_⟩
  · exact (c6_voice_lifecycle _ 0 ⟨[1, 1, 1], 44100, "t"⟩ 1 [2, 1] rfl rfl rfl).1
      (by simp) (by simp)
  · exact (c6_voice_lifecycle _ 0 ⟨[1, 1, 1], 44100, "t"⟩ 1 [2] rfl rfl rfl).2
      (by simp)

/-! ### C7 -/

/-- C7: for every coder state and frame count, `process` returns a block of
exactly `frame_count` stereo frames (`frame_count * 2` samples) and, after
the final clamp, every sample lies in `[-1, 1]`. -/
theorem c7_output_clamped (st : CoderMode.State) (n : ℕ) :
    ((CoderMode.process st n).1.length = n) ∧
    ∀ p ∈ (CoderMode.process st n).1,
      -1 ≤ p.1 ∧ p.1 ≤ 1 ∧ -1 ≤ p.2 ∧ p.2 ≤ 1 := by
  constructor
  · unfold CoderMode.process
    dsimp only
    rw [List.length_map, processVoices_out_length, List.length_replicate]
  · intro p hp
    unfold CoderMode.process at hp
    dsimp only at hp
    rw [List.mem_map] at hp
    obtain ⟨q, _, rfl⟩ := hp
    exact ⟨(clampSample_mem q.1).1, (clampSample_mem q.1).2,
      (clampSample_mem q.2).1, (clampSample_mem q.2).2⟩

/-- Witness for C7 at the fixture coder state (silent single-frame block). -/
theorem c7_witness :
    ((CoderMode.process exampleCoder 1).1.length = 1) ∧
    (-1 ≤ (((0 : ℚ), (0 : ℚ)) : ℚ × ℚ).1 ∧ (((0 : ℚ), (0 : ℚ)) : ℚ × ℚ).1 ≤ 1 ∧
     -1 ≤ (((0 : ℚ), (0 : ℚ)) : ℚ × ℚ).2 ∧ (((0 : ℚ), (0 : ℚ)) : ℚ × ℚ).2 ≤ 1) :=
  ⟨(c7_output_clamped exampleCoder 1).1,
   (c7_output_clamped exampleCoder 1).2 ((0 : ℚ), (0 : ℚ))
     (by rw [(process_no_voices exampleCoder 1 rfl rfl).2.2.2]; simp)⟩

theorem mixVoice_nil_data (vol : ℚ) (out : List (ℚ × ℚ)) (pos : ℕ) :
    CoderMode.mixVoice [] vol out pos = (out, pos) := by
  cases out <;> simp [CoderMode.mixVoice]

theorem processVoices_single_missing (bank : ℤ → Option CoderMode.Sample)
    (id : ℤ) (t : ℕ) (vol : ℚ) (out : List (ℚ × ℚ)) (hb : bank id = none) :
    CoderMode.processVoices bank [⟨id, t, vol⟩] out =
      ((fun k => if k = id then some CoderMode.defaultSample else bank k),
       [], out) := by
  simp only [CoderMode.processVoices]
  have hlr : CoderMode.bankLookup bank id =
      (CoderMode.defaultSample,
       fun k => if k = id then some CoderMode.defaultSample else bank k) := by
    unfold CoderMode.bankLookup
    rw [hb]
  rw [hlr]
  simp only [CoderMode.defaultSample]
  rw [mixVoice_nil_data]
  rw [if_pos (by simp)]

/-- The output of `process` on a state holding exactly one voice at position
0 for a bank-resident sample: the sample data (scaled and clamped) from the
start, independent of the sequence state (sequences never touch the output). -/
theorem process_out_single_voice (st : CoderMode.State) (id : ℤ)
    (s : CoderMode.Sample) (vol : ℚ) (m : ℕ)
    (hb : st.samples id = some s)
    (hv : st.active_samples = [⟨id, 0, vol⟩]) :
    (CoderMode.process st m).1 =
      (List.range m).map (fun j =>
        if j < s.data.length
        then (clampSample (s.data.getD j 0 * vol),
              clampSample (s.data.getD j 0 * vol))
        else (0, 0)) := by
  unfold CoderMode.process
  rw [hv]
  dsimp only
  rw [processVoices_single st.samples id s 0 vol _ hb]
  dsimp only
  rw [mixVoice_replicate_zero, List.map_map]
  refine List.map_congr_left ?_
  intro j _
  by_cases hj : j < s.data.length
  · simp [hj, Function.comp]
  · simp [hj, Function.comp, clampSample_zero]

/-! ### C9 -/

/-- C9: the sequence path has no bank-membership check.  Starting from a
state whose only (playing, non-looping) sequence holds one event for an id
absent from the bank, with the event's offset inside the first block window:
the first `process` call still spawns a voice for that id without touching
the bank; the next call's bank lookup default-inserts an empty `Sample` under
that id, and the voice is removed having contributed only zeros. -/
theorem c9_sequence_unknown_id (bank : ℤ → Option CoderMode.Sample)
    (sid qid off cf : ℤ) (vol : ℚ) (st0 : CoderMode.State) (n m : ℕ)
    (hbank : st0.samples = bank) (hnone : bank sid = none)
    (hv : st0.active_samples = [])
    (hs : st0.sequences = [(qid, ⟨[⟨off, sid, vol⟩], 0, true, cf⟩)])
    (h1 : cf ≤ off) (h2 : off < cf + (n : ℤ)) :
    (CoderMode.process st0 n).2.active_samples = [⟨sid, 0, vol⟩] ∧
    (CoderMode.process st0 n).2.samples sid = none ∧
    (CoderMode.process (CoderMode.process st0 n).2 m).2.samples sid =
      some CoderMode.defaultSample ∧
    (CoderMode.process (CoderMode.process st0 n).2 m).2.active_samples = [] ∧
    (CoderMode.process (CoderMode.process st0 n).2 m).1 =
      List.replicate m (0, 0) := by
  have e2 : (CoderMode.process st0 n).2.active_samples = [⟨sid, 0, vol⟩] := by
    unfold CoderMode.process
    rw [hv, hs]
    dsimp only
    simp [CoderMode.processVoices, CoderMode.processSequences,
      CoderMode.stepSequence, h1, h2]
  have e1 : (CoderMode.process st0 n).2.samples = bank := by
    unfold CoderMode.process
    rw [hv]
    dsimp only
    simp only [CoderMode.processVoices]
    exact hbank
  have e3 : (CoderMode.process st0 n).2.sequences =
      [(qid, ⟨[⟨off, sid, vol⟩], 0, true, cf + (n : ℤ)⟩)] := by
    unfold CoderMode.process
    rw [hv, hs]
    dsimp only
    simp [CoderMode.processSequences, CoderMode.stepSequence]
  have hno : ¬ (off ≥ cf + (n : ℤ)) := by omega
  set st1 := (CoderMode.process st0 n).2 with hst1
  refine ⟨e2, by rw [e1]; exact hnone, ?_, ?_, ?_⟩
  · unfold CoderMode.process
    rw [e2, e1]
    dsimp only
    rw [processVoices_single_missing bank sid 0 vol _ hnone]
    simp
  · unfold CoderMode.process
    rw [e2, e1, e3]
    dsimp only
    rw [processVoices_single_missing bank sid 0 vol _ hnone]
    dsimp only
    simp [CoderMode.processSequences, CoderMode.stepSequence, hno]
  · unfold CoderMode.process
    rw [e2, e1]
    dsimp only
    rw [processVoices_single_missing bank sid 0 vol _ hnone]
    dsimp only
    simp [List.map_replicate, clampSample_zero]

/-- Witness for C9: a bank with no entry under id 7, one playing sequence
whose single event (offset 3, id 7) falls inside the first 4-frame window. -/
theorem c9_witness :
    (CoderMode.process { exampleCoder with
        sequences := [(5, ⟨[⟨3, 7, 1⟩], 0, true, 2⟩)] } 4).2.active_samples =
      [⟨7, 0, 1⟩] ∧
    (CoderMode.process { exampleCoder with
        sequences := [(5, ⟨[⟨3, 7, 1⟩], 0, true, 2⟩)] } 4).2.samples 7 = none ∧
    (CoderMode.process (CoderMode.process { exampleCoder with
        sequences := [(5, ⟨[⟨3, 7, 1⟩], 0, true, 2⟩)] } 4).2 1).2.samples 7 =
      some CoderMode.defaultSample ∧
    (CoderMode.process (CoderMode.process { exampleCoder with
        sequences := [(5, ⟨[⟨3, 7, 1⟩], 0, true, 2⟩)] } 4).2 1).2.active_samples = [] ∧
    (CoderMode.process (CoderMode.process { exampleCoder with
        sequences := [(5, ⟨[⟨3, 7, 1⟩], 0, true, 2⟩)] } 4).2 1).1 =
      List.replicate 1 (0, 0) :=
  c9_sequence_unknown_id (fun _ => none) 7 5 3 2 1 _ 4 1 rfl rfl rfl rfl
    (by norm_num) (by norm_num)

/-! ### C10 -/

/-- C10: a voice spawned by a sequence event during a `process` call
contributes nothing to that call's output (sequence scanning runs after voice
mixing): the first call returns silence while spawning the voice at read
position 0 — wherever inside the block the event offset fell — and the next
call renders the sample from position 0. -/
theorem c10_sequence_voice_defers (bank : ℤ → Option CoderMode.Sample)
    (sid qid off cf : ℤ) (vol : ℚ) (s : CoderMode.Sample)
    (st0 : CoderMode.State) (n m : ℕ)
    (hbank : st0.samples = bank) (hsome : bank sid = some s)
    (hv : st0.active_samples = [])
    (hs : st0.sequences = [(qid, ⟨[⟨off, sid, vol⟩], 0, true, cf⟩)])
    (h1 : cf ≤ off) (h2 : off < cf + (n : ℤ)) :
    (CoderMode.process st0 n).1 = List.replicate n (0, 0) ∧
    (CoderMode.process st0 n).2.active_samples = [⟨sid, 0, vol⟩] ∧
    (CoderMode.process (CoderMode.process st0 n).2 m).1 =
      (List.range m).map (fun j =>
        if j < s.data.length
        then (clampSample (s.data.getD j 0 * vol),
              clampSample (s.data.getD j 0 * vol))
        else (0, 0)) := by
  have e1 : (CoderMode.process st0 n).2.samples = bank := by
    unfold CoderMode.process
    rw [hv]
    dsimp only
    simp only [CoderMode.processVoices]
    exact hbank
  have e2 : (CoderMode.process st0 n).2.active_samples = [⟨sid, 0, vol⟩] := by
    unfold CoderMode.process
    rw [hv, hs]
    dsimp only
    simp [CoderMode.processVoices, CoderMode.processSequences,
      CoderMode.stepSequence, h1, h2]
  refine ⟨?_, e2, ?_⟩
  · unfold CoderMode.process
    rw [hv]
    dsimp only
    simp [CoderMode.processVoices, List.map_replicate, clampSample_zero]
  · exact process_out_single_voice _ sid s vol m (by rw [e1]; exact hsome) e2

/-- Witness for C10: sample id 0 (data `[1/4, 1/2]`) spawned by a sequence
event at offset 3 inside a 4-frame window, then rendered on a 3-frame call. -/
theorem c10_witness :
    (CoderMode.process { exampleCoder with
        samples := fun i => if i = 0 then some ⟨[1/4, 1/2], 44100, "t"⟩ else none,
        sequences := [(5, ⟨[⟨3, 0, 1⟩], 0, true, 2⟩)] } 4).1 =
      List.replicate 4 (0, 0) ∧
    (CoderMode.process { exampleCoder with
        samples := fun i => if i = 0 then some ⟨[1/4, 1/2], 44100, "t"⟩ else none,
        sequences := [(5, ⟨[⟨3, 0, 1⟩], 0, true, 2⟩)] } 4).2.active_samples =
      [⟨0, 0, 1⟩] ∧
    (CoderMode.process (CoderMode.process { exampleCoder with
        samples := fun i => if i = 0 then some ⟨[1/4, 1/2], 44100, "t"⟩ else none,
        sequences := [(5, ⟨[⟨3, 0, 1⟩], 0, true, 2⟩)] } 4).2 3).1 =
      (List.range 3).map (fun j =>
        if j < (List.length [(1 : ℚ)/4, 1/2])
        then (clampSample (([(1 : ℚ)/4, 1/2].getD j 0) * 1),
              clampSample (([(1 : ℚ)/4, 1/2].getD j 0) * 1))
        else (0, 0)) :=
  c10_sequence_voice_defers
    (fun i => if i = 0 then some ⟨[1/4, 1/2], 44100, "t"⟩ else none)
    0 5 3 2 1 ⟨[1/4, 1/2], 44100, "t"⟩ _ 4 3 rfl rfl rfl rfl
    (by norm_num) (by norm_num)

/-! ### DJCueSystem helper lemmas -/

theorem clamp01_nonneg (x : ℚ) : 0 ≤ DJCueSystem.clamp01 x :=
  le_min (by norm_num) (le_max_left 0 x)

theorem clamp01_le_one (x : ℚ) : DJCueSystem.clamp01 x ≤ 1 :=
  min_le_left _ _

theorem clamp01_mono {a b : ℚ} (h : a ≤ b) :
    DJCueSystem.clamp01 a ≤ DJCueSystem.clamp01 b :=
  min_le_min (le_refl 1) (max_le_max (le_refl 0) h)

theorem chain'_le_range_map (g : ℕ → ℚ) (hg : ∀ i, g i ≤ g (i + 1)) (m : ℕ) :
    List.Chain' (· ≤ ·) ((List.range m).map g) := by
  rw [List.chain'_map]
  cases m with
  | zero => simp
  | succ m =>
    rw [List.chain'_range_succ]
    intro i _
    exact hg i

/-- Running the crossfade loop from an integral progress `k < N` with enough
frames and buffer left to finish: the progress counter lands exactly on `N`,
the completion exit fires, and the applied progress values are
`clamp01((k+i)/N)` for `i < N - k`, in order. -/
theorem crossfadeLoop_complete (fo fi : ℚ → ℚ) (N : ℕ) :
    ∀ (n : ℕ) (k : ℕ) (cur nxt : List (ℚ × ℚ)),
      k < N → N - k ≤ n → N - k ≤ cur.length → N - k ≤ nxt.length →
      ((DJCueSystem.crossfadeLoop fo fi N n cur nxt (k : ℚ)).2.1 = (N : ℚ) ∧
       (DJCueSystem.crossfadeLoop fo fi N n cur nxt (k : ℚ)).2.2.1 = true ∧
       (DJCueSystem.crossfadeLoop fo fi N n cur nxt (k : ℚ)).2.2.2 =
         (List.range (N - k)).map
           (fun i => DJCueSystem.clamp01 (((k + i : ℕ) : ℚ) / (N : ℚ)))) := by
  intro n
  induction n with
  | zero =>
    intro k cur nxt hk hn _ _
    omega
  | succ n ih =>
    intro k cur nxt hk hn hc hx
    cases cur with
    | nil => simp at hc; omega
    | cons c cs =>
      cases nxt with
      | nil => simp at hx; omega
      | cons x xs =>
        unfold DJCueSystem.crossfadeLoop
        dsimp only
        have hc1 : ((k : ℚ) + 1) = ((k + 1 : ℕ) : ℚ) := by push_cast; ring
        simp only [hc1, Nat.cast_le]
        by_cases hend : N ≤ k + 1
        · rw [if_pos hend]
          have hkN : k + 1 = N := by omega
          refine ⟨by rw [hkN], rfl, ?_⟩
          rw [show N - k = 1 by omega, show List.range 1 = [0] from rfl]
          simp
        · rw [if_neg hend]
          dsimp only
          obtain ⟨ih1, ih2, ih3⟩ := ih (k + 1) cs xs (by omega) (by omega)
            (by simp at hc; omega) (by simp at hx; omega)
          refine ⟨ih1, ih2, ?_⟩
          rw [ih3]
          rw [show N - k = (N - (k + 1)) + 1 by omega, List.range_succ_eq_map,
            List.map_cons, List.map_map]
          refine congrArg₂ List.cons (by simp) ?_
          refine List.map_congr_left ?_
          intro i _
          have e : k + 1 + i = k + (i + 1) := by omega
          simp [Function.comp, Nat.succ_eq_add_one, e]

/-! ### C4 -/

/-- C4: after `trigger_crossfade` arms a crossfade of
`fade_frames = floor(crossfade_duration * sample_rate)` frames (written `N`),
a `process_crossfade` call covering at least `N` frames applies per-sample
progress values `clamp01(i/N)` that stay in `[0, 1]` and are monotonically
non-decreasing; after exactly `N` frames the progress counter reaches `N`
(clamped quotient exactly 1), the crossfade ends —
`is_crossfading_active` is false, the pending cue's `active` flag is cleared
— and the caller's `current_pos` is reset to 0. -/
theorem c4_crossfade_progress (fo fi : ℚ → ℚ) (st : DJCueSystem.State)
    (cur nxt : List (ℚ × ℚ)) (n pos N : ℕ)
    (hNdef : N = (st.crossfade_duration * (st.sample_rate : ℚ)).floor.toNat)
    (hcue : st.next_cue.active = true) (hN : 0 < N)
    (hn : N ≤ n) (hc : N ≤ cur.length) (hx : N ≤ nxt.length) :
    (DJCueSystem.process_crossfade fo fi (DJCueSystem.trigger_crossfade st)
        cur nxt n pos).2.2.2 =
      (List.range N).map (fun i : ℕ => DJCueSystem.clamp01 ((i : ℚ) / (N : ℚ))) ∧
    List.Chain' (· ≤ ·)
      (DJCueSystem.process_crossfade fo fi (DJCueSystem.trigger_crossfade st)
        cur nxt n pos).2.2.2 ∧
    (∀ q ∈ (DJCueSystem.process_crossfade fo fi
        (DJCueSystem.trigger_crossfade st) cur nxt n pos).2.2.2,
      0 ≤ q ∧ q ≤ 1) ∧
    (DJCueSystem.process_crossfade fo fi (DJCueSystem.trigger_crossfade st)
        cur nxt n pos).1.crossfade_progress = (N : ℚ) ∧
    DJCueSystem.clamp01
      ((DJCueSystem.process_crossfade fo fi (DJCueSystem.trigger_crossfade st)
        cur nxt n pos).1.crossfade_progress / (N : ℚ)) = 1 ∧
    DJCueSystem.is_crossfading_active
      (DJCueSystem.process_crossfade fo fi (DJCueSystem.trigger_crossfade st)
        cur nxt n pos).1 = false ∧
    (DJCueSystem.process_crossfade fo fi (DJCueSystem.trigger_crossfade st)
        cur nxt n pos).1.next_cue.active = false ∧
    (DJCueSystem.process_crossfade fo fi (DJCueSystem.trigger_crossfade st)
        cur nxt n pos).2.2.1 = 0 := by
  have htrig : DJCueSystem.trigger_crossfade st =
      { st with is_crossfading := true, crossfade_progress := 0,
                current_fade_frames := N } := by
    unfold DJCueSystem.trigger_crossfade
    rw [if_pos hcue, hNdef]
  obtain ⟨l1, l2, l3⟩ := crossfadeLoop_complete fo fi N n 0 cur nxt hN
    (by omega) (by omega) (by omega)
  have hloop0 : ((0 : ℕ) : ℚ) = (0 : ℚ) := by norm_num
  rw [hloop0] at l1 l2 l3
  have hrun : DJCueSystem.process_crossfade fo fi
      (DJCueSystem.trigger_crossfade st) cur nxt n pos =
      ({ st with is_crossfading := false, crossfade_progress := (N : ℚ),
                 current_fade_frames := N,
                 next_cue := { st.next_cue with active := false } },
       (DJCueSystem.crossfadeLoop fo fi N n cur nxt 0).1, 0,
       (List.range N).map
         (fun i => DJCueSystem.clamp01 (((0 + i : ℕ) : ℚ) / (N : ℚ)))) := by
    rw [htrig]
    unfold DJCueSystem.process_crossfade
    rw [if_pos rfl]
    dsimp only
    rw [l2, if_pos rfl, l1, l3]
    simp
  rw [hrun]
  dsimp only
  have hplist : (List.range N).map
      (fun i => DJCueSystem.clamp01 (((0 + i : ℕ) : ℚ) / (N : ℚ))) =
      (List.range N).map (fun i : ℕ => DJCueSystem.clamp01 ((i : ℚ) / (N : ℚ))) := by
    refine List.map_congr_left ?_
    intro i _
    norm_num
  rw [hplist]
  have hNQ : (0 : ℚ) < (N : ℚ) := by exact_mod_cast hN
  refine ⟨rfl, ?_, ?_, rfl, ?_, rfl, rfl, rfl⟩
  · refine chain'_le_range_map _ ?_ N
    intro i
    refine clamp01_mono ?_
    rw [div_le_div_iff_of_pos_right hNQ]
    exact_mod_cast Nat.le_succ i
  · intro q hq
    rw [List.mem_map] at hq
    obtain ⟨i, _, rfl⟩ := hq
    exact ⟨clamp01_nonneg _, clamp01_le_one _⟩
  · rw [div_self (ne_of_gt hNQ)]
    norm_num [DJCueSystem.clamp01]

/-- Witness for C4: duration 1 s at sample rate 2 (`N = 2`), two-frame
buffers, a pending cue, and a two-frame call. -/
theorem c4_witness :
    (2 : ℕ) = ((⟨2, 1, 120, false, 37, 0, ⟨"next.mp3", 0, 0, true⟩⟩ :
        DJCueSystem.State).crossfade_duration *
      (((⟨2, 1, 120, false, 37, 0, ⟨"next.mp3", 0, 0, true⟩⟩ :
        DJCueSystem.State).sample_rate : ℤ) : ℚ)).floor.toNat ∧
    (DJCueSystem.process_crossfade (fun _ => 0) (fun _ => 0)
        (DJCueSystem.trigger_crossfade
          ⟨2, 1, 120, false, 37, 0, ⟨"next.mp3", 0, 0, true⟩⟩)
        [(1, 1), (2, 2)] [(3, 3), (4, 4)] 2 7).2.2.2 =
      (List.range 2).map (fun i : ℕ => DJCueSystem.clamp01 ((i : ℚ) / ((2 : ℕ) : ℚ))) ∧
    DJCueSystem.is_crossfading_active
      (DJCueSystem.process_crossfade (fun _ => 0) (fun _ => 0)
        (DJCueSystem.trigger_crossfade
          ⟨2, 1, 120, false, 37, 0, ⟨"next.mp3", 0, 0, true⟩⟩)
        [(1, 1), (2, 2)] [(3, 3), (4, 4)] 2 7).1 = false ∧
    (DJCueSystem.process_crossfade (fun _ => 0) (fun _ => 0)
        (DJCueSystem.trigger_crossfade
          ⟨2, 1, 120, false, 37, 0, ⟨"next.mp3", 0, 0, true⟩⟩)
        [(1, 1), (2, 2)] [(3, 3), (4, 4)] 2 7).2.2.1 = 0 := by
  have h := c4_crossfade_progress (fun _ => 0) (fun _ => 0)
    ⟨2, 1, 120, false, 37, 0, ⟨"next.mp3", 0, 0, true⟩⟩
    [(1, 1), (2, 2)] [(3, 3), (4, 4)] 2 7 2
    (by norm_num [Rat.floor]; rfl) rfl (by norm_num) (by norm_num) (by norm_num)
    (by norm_num)
  exact ⟨by norm_num [Rat.floor]; rfl, h.1, h.2.2.2.2.2.1, h.2.2.2.2.2.2.2⟩

/-! ### C2 -/

/-- C2: in every producing execution of the audio callback (coder or decoder
state) with the muted flag set, the local output block is all zeros while the
chunk pushed onto the stream queue and the block handed to the FFT are the
unmuted produced block — mute is applied only after capture and analysis. -/
theorem c2_mute_after_capture (analyzeFn : List ℚ → List ℚ)
    (st : AudioEngine.State) (n : ℕ) (hm : st.muted = true)
    (hp : st.live_coding_enabled = true ∨
      (st.decoder_initialized = true ∧ st.is_playing = true)) :
    (AudioEngine.data_callback analyzeFn st n).1 =
      List.replicate n ((0 : ℚ), (0 : ℚ)) ∧
    (AudioEngine.data_callback analyzeFn st n).2.stream.stream_queue =
      AudioEngine.add_to_stream_queue st.stream.stream_queue
        (interleave (AudioEngine.produced_block st n)) ∧
    (AudioEngine.data_callback analyzeFn st n).2.current_fft =
      AudioEngine.calculate_fft analyzeFn (AudioEngine.produced_block st n) := by
  by_cases hl : st.live_coding_enabled = true
  · simp [AudioEngine.data_callback, AudioEngine.callbackPublish,
      AudioEngine.produced_block, hl, hm]
  · have hd : st.decoder_initialized = true ∧ st.is_playing = true := by
      rcases hp with h | h
      · exact absurd h hl
      · exact h
    simp [AudioEngine.data_callback, AudioEngine.callbackPublish,
      AudioEngine.produced_block, hl, hd.1, hd.2, hm]

/-- Witness for C2 at a muted decoding engine fixture with one remaining
decoder frame and a two-frame request. -/
theorem c2_witness :
    exampleEngine.muted = true ∧
    ((AudioEngine.data_callback (fun _ => []) exampleEngine 2).1 =
      List.replicate 2 ((0 : ℚ), (0 : ℚ)) ∧
    (AudioEngine.data_callback (fun _ => []) exampleEngine 2).2.stream.stream_queue =
      AudioEngine.add_to_stream_queue exampleEngine.stream.stream_queue
        (interleave (AudioEngine.produced_block exampleEngine 2)) ∧
    (AudioEngine.data_callback (fun _ => []) exampleEngine 2).2.current_fft =
      AudioEngine.calculate_fft (fun _ => [])
        (AudioEngine.produced_block exampleEngine 2)) :=
  ⟨rfl, c2_mute_after_capture (fun _ => []) exampleEngine 2 rfl (Or.inr ⟨rfl, rfl⟩)⟩

end Harmonic
